import Mathlib

/-!
Shallow embedding of the react-data-matrix grid widget.

The repository ships two GPU renderer implementations inside
`src/components/WebGLRenderer.tsx` (the file concatenates two versions of the
component).  We refer to the first one (lines 1-654, `initScene`-based) with
the suffix `A` and to the second one (lines 655-1334, `renderCells`-based)
with the suffix `B`.  Pixel quantities are modelled as rationals, row/column
indices as integers resp. naturals.
-/

namespace ReactDataMatrix

/-- Scroll clamping as applied in the wheel and scrollbar-drag handlers of
both renderer implementations:
`Math.max(0, Math.min(offset, totalHeight - containerHeight))`. -/
def clampScroll (offset total viewport : ℚ) : ℚ :=
  max 0 (min offset (total - viewport))

/-- Implementation A, `WebGLRenderer.tsx` line 74 and 121:
`visibleRowsCount.current = Math.ceil(height / rowHeight) + 1`. -/
def visibleRowsCountA (viewportHeight rowHeight : ℚ) : ℤ :=
  ⌈viewportHeight / rowHeight⌉ + 1

/-- Implementation B, `WebGLRenderer.tsx` line 737 and 1086:
`visibleRowsCount.current = Math.ceil(containerHeight / rowHeight) + 2`. -/
def visibleRowsCountB (viewportHeight rowHeight : ℚ) : ℤ :=
  ⌈viewportHeight / rowHeight⌉ + 2

/-- The visible-window computation shared by `initScene` (lines 399-403) and
`renderCells` (lines 826-830):
`startRowIndex = Math.floor(scrollOffset / rowHeight)` and
`endRowIndex = Math.min(startRowIndex + visibleRowsCount.current, data.length)`.
Returns the half-open row range as a pair (start, end). -/
def visibleWindow (scrollOffset rowHeight : ℚ) (visibleRows rowCount : ℤ) : ℤ × ℤ :=
  let s := ⌊scrollOffset / rowHeight⌋
  (s, min (s + visibleRows) rowCount)

/-- Implementation A total content height, `WebGLRenderer.tsx` lines 40, 551,
616: `totalHeight.current = (data.length + 1) * rowHeight`. -/
def totalHeightA (rowCount : ℕ) (rowHeight : ℚ) : ℚ :=
  ((rowCount : ℚ) + 1) * rowHeight

/-- Implementation B total content height, `WebGLRenderer.tsx` lines 694,
1296: `totalHeight.current = data.length * rowHeight`. -/
def totalHeightB (rowCount : ℕ) (rowHeight : ℚ) : ℚ :=
  (rowCount : ℚ) * rowHeight

/-- Implementation A wheel handler (`handleWheel`, lines 269-296).  Returns
(calledPreventDefault, resulting scroll offset).  The raw `deltaY` is used
undamped; `preventDefault` and `setScrollOffset` both happen exactly when the
edge condition holds and the clamped new offset differs from the current one. -/
def handleWheelA (scrollOffset delta total viewport : ℚ) : Bool × ℚ :=
  if ((0 < delta ∧ scrollOffset < total - viewport) ∨ (delta < 0 ∧ 0 < scrollOffset))
      ∧ clampScroll (scrollOffset + delta) total viewport ≠ scrollOffset then
    (true, clampScroll (scrollOffset + delta) total viewport)
  else
    (false, scrollOffset)

/-- Implementation B wheel handler (`handleWheel`, lines 1195-1212):
`event.preventDefault()` is called unconditionally, the delta is damped by
0.5, and the clamped offset is always stored. -/
def handleWheelB (scrollOffset delta total viewport : ℚ) : Bool × ℚ :=
  (true, clampScroll (scrollOffset + delta * (1 / 2)) total viewport)

/-- Claim C3: the scroll-clamping function used by the wheel and
scrollbar-drag handlers is idempotent, and its output always lies in the
interval [0, max 0 (totalHeight - viewportHeight)]. -/
theorem clampScroll_idempotent_bounded (offset total viewport : ℚ) :
    clampScroll (clampScroll offset total viewport) total viewport
      = clampScroll offset total viewport ∧
    0 ≤ clampScroll offset total viewport ∧
    clampScroll offset total viewport ≤ max 0 (total - viewport) := by
  unfold clampScroll
  refine ⟨?_, le_max_left _ _, max_le_max le_rfl (min_le_right _ _)⟩
  rcases le_total (total - viewport) 0 with h | h
  · rw [max_eq_left (le_trans (min_le_right offset _) h), min_eq_right h, max_eq_left h]
  · have hm : max 0 (min offset (total - viewport)) ≤ total - viewport :=
      max_le h (min_le_right _ _)
    rw [min_eq_left hm, max_eq_right (le_max_left _ _)]

/-- Claim C2: for every scrollOffset ≥ 0, rowHeight > 0, viewportHeight ≥ 0
and rowCount ≥ 0, the visible-window computation (in both implementations)
returns start = ⌊scrollOffset / rowHeight⌋ and
end = min (start + ⌈viewportHeight / rowHeight⌉ + overscan) rowCount, with
overscan = 1 (implementation A) resp. 2 (implementation B), both ≥ 1, and
consequently end − start ≤ ⌈viewportHeight / rowHeight⌉ + overscan + 1. -/
theorem visibleWindow_spec (scrollOffset rowHeight viewportHeight : ℚ) (rowCount : ℤ)
    (hso : 0 ≤ scrollOffset) (hrh : 0 < rowHeight) (hvh : 0 ≤ viewportHeight)
    (hrc : 0 ≤ rowCount) :
    (visibleWindow scrollOffset rowHeight (visibleRowsCountA viewportHeight rowHeight) rowCount).1
        = ⌊scrollOffset / rowHeight⌋ ∧
    (visibleWindow scrollOffset rowHeight (visibleRowsCountA viewportHeight rowHeight) rowCount).2
        = min (⌊scrollOffset / rowHeight⌋ + (⌈viewportHeight / rowHeight⌉ + 1)) rowCount ∧
    (1 : ℤ) ≥ 1 ∧
    (visibleWindow scrollOffset rowHeight (visibleRowsCountA viewportHeight rowHeight) rowCount).2
        - (visibleWindow scrollOffset rowHeight (visibleRowsCountA viewportHeight rowHeight) rowCount).1
        ≤ ⌈viewportHeight / rowHeight⌉ + 1 + 1 ∧
    (visibleWindow scrollOffset rowHeight (visibleRowsCountB viewportHeight rowHeight) rowCount).1
        = ⌊scrollOffset / rowHeight⌋ ∧
    (visibleWindow scrollOffset rowHeight (visibleRowsCountB viewportHeight rowHeight) rowCount).2
        = min (⌊scrollOffset / rowHeight⌋ + (⌈viewportHeight / rowHeight⌉ + 2)) rowCount ∧
    (2 : ℤ) ≥ 1 ∧
    (visibleWindow scrollOffset rowHeight (visibleRowsCountB viewportHeight rowHeight) rowCount).2
        - (visibleWindow scrollOffset rowHeight (visibleRowsCountB viewportHeight rowHeight) rowCount).1
        ≤ ⌈viewportHeight / rowHeight⌉ + 2 + 1 := by
  refine ⟨rfl, rfl, le_refl 1, ?_, rfl, rfl, by norm_num, ?_⟩
  · show min (⌊scrollOffset / rowHeight⌋ + (⌈viewportHeight / rowHeight⌉ + 1)) rowCount
        - ⌊scrollOffset / rowHeight⌋ ≤ ⌈viewportHeight / rowHeight⌉ + 1 + 1
    omega
  · show min (⌊scrollOffset / rowHeight⌋ + (⌈viewportHeight / rowHeight⌉ + 2)) rowCount
        - ⌊scrollOffset / rowHeight⌋ ≤ ⌈viewportHeight / rowHeight⌉ + 2 + 1
    omega

/-- Witness for C2 at scrollOffset = 100, rowHeight = 48, viewport = 500,
rowCount = 1000, where the window is [2, min (2 + 11 + 1) 1000) = [2, 14). -/
theorem visibleWindow_spec_witness :
    (visibleWindow 100 48 (visibleRowsCountA 500 48) 1000).1 = ⌊(100 : ℚ) / 48⌋ ∧
    (visibleWindow 100 48 (visibleRowsCountA 500 48) 1000).2
        = min (⌊(100 : ℚ) / 48⌋ + (⌈(500 : ℚ) / 48⌉ + 1)) 1000 ∧
    (1 : ℤ) ≥ 1 ∧
    (visibleWindow 100 48 (visibleRowsCountA 500 48) 1000).2
        - (visibleWindow 100 48 (visibleRowsCountA 500 48) 1000).1
        ≤ ⌈(500 : ℚ) / 48⌉ + 1 + 1 ∧
    (visibleWindow 100 48 (visibleRowsCountB 500 48) 1000).1 = ⌊(100 : ℚ) / 48⌋ ∧
    (visibleWindow 100 48 (visibleRowsCountB 500 48) 1000).2
        = min (⌊(100 : ℚ) / 48⌋ + (⌈(500 : ℚ) / 48⌉ + 2)) 1000 ∧
    (2 : ℤ) ≥ 1 ∧
    (visibleWindow 100 48 (visibleRowsCountB 500 48) 1000).2
        - (visibleWindow 100 48 (visibleRowsCountB 500 48) 1000).1
        ≤ ⌈(500 : ℚ) / 48⌉ + 2 + 1 :=
  visibleWindow_spec 100 48 500 1000 (by norm_num) (by norm_num) (by norm_num)
    (by norm_num)

/-- Counterexample for C5 as stated: implementation B's total content height
at rowCount = 1, rowHeight = 48 is 48, not (1 + 1) × 48 = 96 — the
header-inclusive formula does not hold in both implementations. -/
theorem totalHeightB_not_header_inclusive :
    totalHeightB 1 48 = 48 ∧ (((1 : ℕ) : ℚ) + 1) * 48 = 96 ∧
    totalHeightB 1 48 ≠ (((1 : ℕ) : ℚ) + 1) * 48 := by
  refine ⟨by norm_num [totalHeightB], by norm_num, by norm_num [totalHeightB]⟩

/-- Claim C5 (amended): implementation A uses the header-inclusive total
content height (rowCount + 1) × rowHeight for scroll clamping and the
scrollbar thumb, while implementation B uses the header-exclusive
rowCount × rowHeight; the two differ by exactly one rowHeight. -/
theorem totalHeight_formulas (rowCount : ℕ) (rowHeight : ℚ) :
    totalHeightA rowCount rowHeight = ((rowCount : ℚ) + 1) * rowHeight ∧
    totalHeightB rowCount rowHeight = (rowCount : ℚ) * rowHeight ∧
    totalHeightA rowCount rowHeight - totalHeightB rowCount rowHeight = rowHeight := by
  refine ⟨rfl, rfl, ?_⟩
  simp only [totalHeightA, totalHeightB]
  ring

/-- Helper: whenever the wheel handler's edge condition fails and the current
offset is inside the valid scroll range, re-clamping offset + delta gives back
the current offset. -/
theorem clampScroll_eq_self (o δ t v : ℚ) (h0 : 0 ≤ o) (h1 : o ≤ max 0 (t - v))
    (hpos : 0 < δ → t - v ≤ o) (hneg : δ < 0 → o ≤ 0) :
    clampScroll (o + δ) t v = o := by
  unfold clampScroll
  rcases le_total 0 (t - v) with hc | hc
  · rw [max_eq_right hc] at h1
    rcases lt_trichotomy δ 0 with hδ | hδ | hδ
    · have ho : o = 0 := le_antisymm (hneg hδ) h0
      subst ho
      rw [min_def, max_def]; split_ifs <;> linarith
    · subst hδ
      rw [min_def, max_def]; split_ifs <;> linarith
    · have hco := hpos hδ
      rw [min_def, max_def]; split_ifs <;> linarith
  · rw [max_eq_left hc] at h1
    have ho : o = 0 := le_antisymm h1 h0
    subst ho
    rw [min_def, max_def]; split_ifs <;> linarith

/-- Counterexample for C6 as stated: implementation B's wheel handler calls
preventDefault even when the grid is pinned at the top edge and a further
upward wheel (delta < 0) leaves the clamped offset unchanged. -/
theorem handleWheelB_always_prevents :
    (handleWheelB 0 (-100) 1000 400).1 = true ∧
    (handleWheelB 0 (-100) 1000 400).2 = 0 := by
  refine ⟨rfl, ?_⟩
  show clampScroll (0 + -100 * (1 / 2)) 1000 400 = 0
  rw [clampScroll, min_def, max_def]
  norm_num

/-- Claim C6 (amended): in implementation A, for any current offset inside
the valid scroll range, the wheel handler calls preventDefault if and only if
the clamped new offset differs from the current one; implementation B calls
preventDefault unconditionally on every wheel event. -/
theorem handleWheel_preventDefault_iff :
    (∀ o δ t v : ℚ, 0 ≤ o → o ≤ max 0 (t - v) →
      ((handleWheelA o δ t v).1 = true ↔ clampScroll (o + δ) t v ≠ o)) ∧
    (∀ o δ t v : ℚ, (handleWheelB o δ t v).1 = true) := by
  constructor
  · intro o δ t v h0 h1
    unfold handleWheelA
    split_ifs with hc
    · simpa using hc.2
    · simp only [Bool.false_eq_true, false_iff, ne_eq, not_not]
      by_cases hck : clampScroll (o + δ) t v = o
      · exact hck
      · exfalso
        apply hc
        refine ⟨?_, hck⟩
        by_contra hcond
        push_neg at hcond
        exact hck (clampScroll_eq_self o δ t v h0 h1 hcond.1 hcond.2)
  · intro o δ t v
    rfl

/-- Witness for C6 (amended) at offset 0, delta 10, total 1000, viewport 400:
scrolling down from the top both changes the offset and suppresses the page
scroll. -/
theorem handleWheel_preventDefault_iff_witness :
    (handleWheelA 0 10 1000 400).1 = true ↔ clampScroll (0 + 10) 1000 400 ≠ 0 :=
  handleWheel_preventDefault_iff.1 0 10 1000 400 (by norm_num) (by norm_num)

/-- The list of integers in the half-open range [s, e), as produced by
`for (let i = startRowIndex; i < endRowIndex; i++)`. -/
def intRange (s e : ℤ) : List ℤ :=
  (List.range (e - s).toNat).map fun (i : ℕ) => s + (i : ℤ)

/-- `initScene` lines 410-413: `const includedRows = [-1]` followed by pushing
every index of the visible range. -/
def includedRowsA (s e : ℤ) : List ℤ :=
  -1 :: intRange s e

/-- Implementation A reconciliation (`initScene`, lines 386-548): the previous
mesh pool is fully removed and disposed (`meshesRef.current = {}`), then one
mesh keyed `cell-rowIndex-colIndex` is created for every included row and
every column index.  The resulting pool is modelled by its key list. -/
def reconcileA (prev : List (ℤ × ℕ)) (s e : ℤ) (cols : ℕ) : List (ℤ × ℕ) :=
  (includedRowsA s e).flatMap fun r => (List.range cols).map fun c => (r, c)

/-- Implementation B reconciliation (`renderCells`, lines 807-1046): previous
meshes are disposed, then meshes are created for rows of [start, end) only —
there is no header entry at row index -1. -/
def reconcileB (prev : List (ℤ × ℕ)) (s e : ℤ) (cols : ℕ) : List (ℤ × ℕ) :=
  (intRange s e).flatMap fun r => (List.range cols).map fun c => (r, c)

/-- Modelled from the spec's words, for comparison with the code-derived
reconciliation: the required key set
`{-1} ∪ [visibleWindow.start, visibleWindow.end)` crossed with the columns. -/
def requiredKeys (s e : ℤ) (cols : ℕ) : Finset (ℤ × ℕ) :=
  (insert (-1) (Finset.Ico s e)) ×ˢ Finset.range cols

theorem mem_intRange (x s e : ℤ) : x ∈ intRange s e ↔ s ≤ x ∧ x < e := by
  simp only [intRange, List.mem_map, List.mem_range]
  constructor
  · rintro ⟨i, hi, rfl⟩
    omega
  · rintro ⟨h1, h2⟩
    exact ⟨(x - s).toNat, by omega, by omega⟩

theorem intRange_nodup (s e : ℤ) : (intRange s e).Nodup := by
  refine List.Nodup.map ?_ (List.nodup_range _)
  intro a b h
  simp only [add_right_inj, Nat.cast_inj] at h
  exact h

theorem keyRows_disjoint {r r' : ℤ} {cols : ℕ} (h : r ≠ r') :
    List.Disjoint ((List.range cols).map fun c => (r, c))
      ((List.range cols).map fun c => (r', c)) := by
  intro a ha ha'
  simp only [List.mem_map, List.mem_range] at ha ha'
  obtain ⟨c, _, rfl⟩ := ha
  obtain ⟨c', _, hc'⟩ := ha'
  exact h (congrArg Prod.fst hc').symm

/-- Counterexample for C1 as stated: implementation B's reconciliation at
window [0, 1) with one column yields the key set {(0, 0)}, which misses the
required header entry (-1, 0). -/
theorem reconcileB_misses_header :
    (reconcileB [] 0 1 1).toFinset ≠ requiredKeys 0 1 1 ∧
    ((-1 : ℤ), (0 : ℕ)) ∈ requiredKeys 0 1 1 ∧
    ((-1 : ℤ), (0 : ℕ)) ∉ reconcileB [] 0 1 1 := by
  refine ⟨?_, by decide, by decide⟩
  decide

/-- Claim C1 (amended): after every reconciliation pass of implementation A,
the live mesh key set equals exactly {-1} ∪ [start, end) crossed with the
column indices, with no duplicate key (one mesh per key) whenever start ≥ 0,
and independently of whatever pool was live before; implementation B instead
produces exactly [start, end) × columns, with no header entry at -1. -/
theorem reconcile_key_sets (prev prev' : List (ℤ × ℕ)) (s e : ℤ) (cols : ℕ)
    (hs : 0 ≤ s) :
    (reconcileA prev s e cols).toFinset = requiredKeys s e cols ∧
    reconcileA prev s e cols = reconcileA prev' s e cols ∧
    (reconcileA prev s e cols).Nodup ∧
    (reconcileB prev s e cols).toFinset = Finset.Ico s e ×ˢ Finset.range cols := by
  refine ⟨?_, rfl, ?_, ?_⟩
  · ext ⟨r, c⟩
    simp only [reconcileA, includedRowsA, requiredKeys, List.mem_toFinset,
      List.mem_flatMap, List.mem_cons, List.mem_map, List.mem_range,
      mem_intRange, Finset.mem_product, Finset.mem_insert, Finset.mem_Ico,
      Finset.mem_range, Prod.mk.injEq]
    constructor
    · rintro ⟨a, ha, c', hc', rfl, rfl⟩
      exact ⟨ha, hc'⟩
    · rintro ⟨ha, hc⟩
      exact ⟨r, ha, c, hc, rfl, rfl⟩
  · rw [reconcileA, List.nodup_flatMap]
    constructor
    · intro r _
      exact (List.nodup_range cols).map fun c₁ c₂ h => congrArg Prod.snd h
    · have hnd : (includedRowsA s e).Nodup := by
        rw [includedRowsA, List.nodup_cons]
        refine ⟨fun hmem => ?_, intRange_nodup s e⟩
        rw [mem_intRange] at hmem
        omega
      exact List.Pairwise.imp (fun h => keyRows_disjoint h) hnd
  · ext ⟨r, c⟩
    simp only [reconcileB, List.mem_toFinset, List.mem_flatMap, List.mem_map,
      List.mem_range, mem_intRange, Finset.mem_product, Finset.mem_Ico,
      Finset.mem_range, Prod.mk.injEq]
    constructor
    · rintro ⟨a, ha, c', hc', rfl, rfl⟩
      exact ⟨ha, hc'⟩
    · rintro ⟨ha, hc⟩
      exact ⟨r, ha, c, hc, rfl, rfl⟩

/-- Witness for C1 (amended) at window [0, 2) with 2 columns: the pool holds
exactly the six keys {-1, 0, 1} × {0, 1}, regardless of the previous pool. -/
theorem reconcile_key_sets_witness :
    (reconcileA [(5, 7)] 0 2 2).toFinset = requiredKeys 0 2 2 ∧
    reconcileA [(5, 7)] 0 2 2 = reconcileA [] 0 2 2 ∧
    (reconcileA [(5, 7)] 0 2 2).Nodup ∧
    (reconcileB [(5, 7)] 0 2 2).toFinset = Finset.Ico 0 2 ×ˢ Finset.range 2 :=
  reconcile_key_sets [(5, 7)] [] 0 2 2 (by norm_num)

/-- The running x-offsets of `initScene`/`renderCells`: `offsetX` starts at 0,
each mesh is placed at `offsetX + cellWidth / 2`, and `offsetX` is then
incremented by `cellWidth` (lines 417, 518, 546 resp. 837, 1029, 1044). -/
def meshXsGo (acc : ℚ) : List ℚ → List ℚ
  | [] => []
  | w :: ws => (acc + w / 2) :: meshXsGo (acc + w) ws

/-- The x-positions of one row's meshes, given the column widths. -/
def meshXs (cellWidths : List ℚ) : List ℚ :=
  meshXsGo 0 cellWidths

/-- Implementation A y-position (lines 521-528): header pinned at
rowHeight / 2, data rows at (rowIndex - startRowIndex + 1) * rowHeight +
rowHeight / 2. -/
def meshYA (isHeader : Bool) (rowIndex startRow : ℤ) (rowHeight : ℚ) : ℚ :=
  if isHeader then rowHeight / 2
  else ((rowIndex : ℚ) - (startRow : ℚ) + 1) * rowHeight + rowHeight / 2

/-- Implementation B y-position (lines 1030-1031):
(rowIndex - startRowIndex) * rowHeight + rowHeight / 2, with no header mesh. -/
def meshYB (rowIndex startRow : ℤ) (rowHeight : ℚ) : ℚ :=
  ((rowIndex : ℚ) - (startRow : ℚ)) * rowHeight + rowHeight / 2

theorem meshXsGo_getD (ws : List ℚ) : ∀ (acc : ℚ) (j : ℕ), j < ws.length →
    (meshXsGo acc ws).getD j 0 = acc + (ws.take j).sum + ws.getD j 0 / 2 := by
  induction ws with
  | nil => intro acc j h; simp at h
  | cons w ws ih =>
    intro acc j h
    cases j with
    | zero => simp [meshXsGo]
    | succ j =>
      simp only [meshXsGo, List.getD_cons_succ, List.take_succ_cons,
        List.sum_cons]
      rw [ih (acc + w) j (by simpa using h)]
      ring

/-- Counterexample for C7 as stated: for implementation B with rowHeight 48
and rowIndex = startRow, the data-row y-position is 24, not the
(rowIndex - start + 1) * rowHeight + rowHeight / 2 = 72 that the claim
requires for every created mesh (and B creates no header mesh at all). -/
theorem meshYB_not_offset_below_header :
    meshYB 0 0 48 = 24 ∧ (((0 : ℤ) : ℚ) - ((0 : ℤ) : ℚ) + 1) * 48 + 48 / 2 = 72 ∧
    meshYB 0 0 48 ≠ (((0 : ℤ) : ℚ) - ((0 : ℤ) : ℚ) + 1) * 48 + 48 / 2 := by
  refine ⟨by norm_num [meshYB], by norm_num, by norm_num [meshYB]⟩

/-- Claim C7 (amended): in implementation A every mesh's x equals the sum of
the preceding column widths plus half its own width, the header y is pinned
at rowHeight / 2, and data rows sit at (rowIndex - start + 1) * rowHeight +
rowHeight / 2; implementation B uses the same x rule but positions data rows
at (rowIndex - start) * rowHeight + rowHeight / 2 and creates no header
mesh. -/
theorem mesh_positions (cellWidths : List ℚ) (j : ℕ) (hj : j < cellWidths.length)
    (rowIndex startRow : ℤ) (rowHeight : ℚ) :
    (meshXs cellWidths).getD j 0
      = (cellWidths.take j).sum + cellWidths.getD j 0 / 2 ∧
    meshYA true rowIndex startRow rowHeight = rowHeight / 2 ∧
    meshYA false rowIndex startRow rowHeight
      = ((rowIndex : ℚ) - (startRow : ℚ) + 1) * rowHeight + rowHeight / 2 ∧
    meshYB rowIndex startRow rowHeight
      = ((rowIndex : ℚ) - (startRow : ℚ)) * rowHeight + rowHeight / 2 := by
  refine ⟨?_, rfl, rfl, rfl⟩
  have h := meshXsGo_getD cellWidths 0 j hj
  simpa [meshXs] using h

/-- Witness for C7 (amended) with widths [100, 150], column 1, rowIndex 5,
startRow 3, rowHeight 48: x = 100 + 75, header y = 24, data y values per the
two formulas. -/
theorem mesh_positions_witness :
    (meshXs [100, 150]).getD 1 0
      = (([100, 150] : List ℚ).take 1).sum + ([100, 150] : List ℚ).getD 1 0 / 2 ∧
    meshYA true 5 3 48 = 48 / 2 ∧
    meshYA false 5 3 48 = (((5 : ℤ) : ℚ) - ((3 : ℤ) : ℚ) + 1) * 48 + 48 / 2 ∧
    meshYB 5 3 48 = (((5 : ℤ) : ℚ) - ((3 : ℤ) : ℚ)) * 48 + 48 / 2 :=
  mesh_positions [100, 150] 1 (by norm_num) 5 3 48

/-- The three-character ellipsis `"..."` appended by `truncateText`. -/
def ellipsisChars : List Char :=
  ['.', '.', '.']

/-- The `while (width > maxWidth && truncated.length > 1)` loop of
`truncateText` (lines 581-584): drop the last character, then re-measure the
candidate with the ellipsis appended.  Strings are modelled as `List Char`
and the font-metric function `context.measureText` as an arbitrary
`m : List Char → ℚ`.  The loop shortens `truncated` by exactly one character
per iteration and only runs while its length exceeds 1, so the initial length
is used as structural fuel; the fuel never runs out on these inputs. -/
def truncateLoop (m : List Char → ℚ) (maxW : ℚ) : ℕ → List Char → ℚ → List Char
  | 0, t, _ => t
  | fuel + 1, t, w =>
    if maxW < w ∧ 1 < t.length then
      truncateLoop m maxW fuel t.dropLast (m (t.dropLast ++ ellipsisChars))
    else t

/-- `truncateText` (lines 567-587): empty strings pass through, strings whose
measured width fits `maxWidth` are returned unchanged, otherwise the loop
runs (seeded with the width of the un-ellipsized text) and the ellipsis is
appended to whatever remains. -/
def truncateText (m : List Char → ℚ) (maxW : ℚ) (text : List Char) : List Char :=
  if text = [] then []
  else if m text ≤ maxW then text
  else truncateLoop m maxW text.length text (m text) ++ ellipsisChars

theorem truncateLoop_spec (m : List Char → ℚ) (maxW : ℚ) :
    ∀ (fuel : ℕ) (t : List Char) (w : ℚ), t ≠ [] → t.length ≤ fuel →
    ∃ r, truncateLoop m maxW fuel t w = r ∧ r ≠ [] ∧ (∃ rest, r ++ rest = t) ∧
      (m (r ++ ellipsisChars) ≤ maxW ∨ r.length = 1 ∨ (r = t ∧ w ≤ maxW)) := by
  intro fuel
  induction fuel with
  | zero =>
    intro t w ht hlen
    exact absurd (List.length_eq_zero.mp (Nat.le_zero.mp hlen)) ht
  | succ fuel ih =>
    intro t w ht hlen
    rw [truncateLoop]
    split_ifs with hc
    · have hlt : 1 < t.length := hc.2
      have hne : t.dropLast ≠ [] := by
        intro h0
        have := congrArg List.length h0
        rw [List.length_dropLast] at this
        simp at this
        omega
      have hlen' : t.dropLast.length ≤ fuel := by
        rw [List.length_dropLast]
        omega
      obtain ⟨r, hr, hrne, ⟨rest, hrest⟩, hdisj⟩ :=
        ih t.dropLast (m (t.dropLast ++ ellipsisChars)) hne hlen'
      refine ⟨r, hr, hrne, ⟨rest ++ [t.getLast ht], ?_⟩, ?_⟩
      · rw [← List.append_assoc, hrest, List.dropLast_append_getLast ht]
      · rcases hdisj with h | h | ⟨heq, hw⟩
        · exact Or.inl h
        · exact Or.inr (Or.inl h)
        · exact Or.inl (heq ▸ hw)
    · by_cases hw : w ≤ maxW
      · exact ⟨t, rfl, ht, ⟨[], by simp⟩, Or.inr (Or.inr ⟨rfl, hw⟩)⟩
      · have h1 : t.length = 1 := by
          rcases Nat.lt_or_ge 1 t.length with h | h
          · exact absurd ⟨lt_of_not_le hw, h⟩ hc
          · have : t.length ≠ 0 := fun h0 => ht (List.length_eq_zero.mp h0)
            omega
        exact ⟨t, rfl, ht, ⟨[], by simp⟩, Or.inr (Or.inl h1)⟩

/-- Counterexample for C4 as stated: with the width function that measures
each character as one pixel and budget 1, the input "ab" does not fit, and
the truncation loop bottoms out at the single character "a" — the returned
"a..." measures 4 > 1, exceeding the positive pixel budget. -/
theorem truncateText_exceeds_budget :
    truncateText (fun cs => (cs.length : ℚ)) 1 ['a', 'b'] = ['a', '.', '.', '.'] ∧
    ¬ (((truncateText (fun cs => (cs.length : ℚ)) 1 ['a', 'b']).length : ℚ) ≤ 1) ∧
    (0 : ℚ) < 1 := by
  refine ⟨by decide, by decide, by norm_num⟩

/-- Claim C4 (amended): empty input yields empty output; if the measured
width of the input already fits the budget the input is returned unchanged;
otherwise the result is a nonempty prefix of the input with the ellipsis
appended, decided purely by the measure function, and its measured width is
within the budget unless the loop has shrunk the prefix down to a single
character (the loop refuses to drop the last remaining character, so a
single character plus ellipsis may still exceed a small budget). -/
theorem truncateText_spec (m : List Char → ℚ) (maxW : ℚ) (text : List Char)
    (hpos : 0 < maxW) :
    (text = [] → truncateText m maxW text = []) ∧
    (m text ≤ maxW → truncateText m maxW text = text) ∧
    (text ≠ [] → ¬ m text ≤ maxW →
      ∃ r, truncateText m maxW text = r ++ ellipsisChars ∧ r ≠ [] ∧
        (∃ rest, r ++ rest = text) ∧
        (m (r ++ ellipsisChars) ≤ maxW ∨ r.length = 1)) := by
  refine ⟨?_, ?_, ?_⟩
  · intro h
    rw [truncateText, if_pos h]
  · intro hm
    rw [truncateText]
    split_ifs with h
    · exact h.symm
    · rfl
  · intro ht hm
    rw [truncateText, if_neg ht, if_neg hm]
    obtain ⟨r, hr, hrne, hpre, hdisj⟩ :=
      truncateLoop_spec m maxW text.length text (m text) ht le_rfl
    refine ⟨r, by rw [hr], hrne, hpre, ?_⟩
    rcases hdisj with h | h | ⟨_, hw⟩
    · exact Or.inl h
    · exact Or.inr h
    · exact absurd hw hm

/-- Witness for C4 (amended) with the per-character width function, budget
10 and input "hi", which fits and is returned unchanged. -/
theorem truncateText_spec_witness :
    ((['h', 'i'] : List Char) = [] →
      truncateText (fun cs => (cs.length : ℚ)) 10 ['h', 'i'] = []) ∧
    ((fun cs => (cs.length : ℚ)) ['h', 'i'] ≤ 10 →
      truncateText (fun cs => (cs.length : ℚ)) 10 ['h', 'i'] = ['h', 'i']) ∧
    ((['h', 'i'] : List Char) ≠ [] →
      ¬ (fun cs => (cs.length : ℚ)) ['h', 'i'] ≤ 10 →
      ∃ r, truncateText (fun cs => (cs.length : ℚ)) 10 ['h', 'i']
            = r ++ ellipsisChars ∧ r ≠ [] ∧
          (∃ rest, r ++ rest = ['h', 'i']) ∧
          (((r ++ ellipsisChars).length : ℚ) ≤ 10 ∨ r.length = 1)) :=
  truncateText_spec (fun cs => (cs.length : ℚ)) 10 ['h', 'i'] (by norm_num)

/-- A JS cell value as the grid sees it.  Environment-produced string forms
(`String(v)`, `toLocaleDateString`, `Intl.NumberFormat` currency output,
`JSON.stringify`) are carried as data; a `none` in an `Option String` field
marks the conversion throwing.  `numV`'s `high` flag records
`cellValue > 80000` for the salary highlight. -/
inductive CellValue where
  | nullV
  | undefV
  | boolV (b : Bool)
  | numV (numRepr currencyRepr : String) (high : Bool)
  | strV (s : String)
  | dateV (localeRepr strRepr jsonRepr : String)
  | objV (json str : Option String)
  deriving DecidableEq

/-- The text colour/weight classes used by `renderCells` when formatting a
value (muted grey for missing values, green/red for booleans and the salary
highlight). -/
inductive TextStyle where
  | normal
  | muted
  | positive
  | negative
  deriving DecidableEq

/-- JS `String(v)` for the modelled value kinds.  `String(object)` invokes
the object's `toString`, which may throw — modelled by the `str` field. -/
def stringOfJs : CellValue → Option String
  | .nullV => some "null"
  | .undefV => some "undefined"
  | .boolV b => some (if b then "true" else "false")
  | .numV r _ _ => some r
  | .strV s => some s
  | .dateV _ r _ => some r
  | .objV _ str => str

/-- Implementation A's display value (`initScene`, lines 476-488):
`displayValue` starts as `""`; non-null values of `typeof "object"` (dates
and plain objects) go through `JSON.stringify` inside try/catch with the
`"[Object]"` fallback; other values go through `String(v)`. -/
def formatA : CellValue → String
  | .nullV => ""
  | .undefV => ""
  | .boolV b => if b then "true" else "false"
  | .numV r _ _ => r
  | .strV s => s
  | .dateV _ _ j => j
  | .objV json _ => json.getD "[Object]"

/-- The character-count truncation of `renderCells` (lines 921-923):
`displayValue.length > 20` is cut to 17 characters plus `"..."`. -/
def truncB (s : String) : String :=
  if 20 < s.length then s.take 17 ++ "..." else s

/-- Implementation B's display value and text style (`renderCells`, lines
892-926): `String(cellValue)` is computed first (it can throw for objects —
modelled as `Except.error`), then the value-kind chain rewrites it: em-dash
for null/undefined with muted colour, check/cross glyphs for booleans,
locale date string for dates, currency format for the salary column, then
character-count truncation. -/
def formatB (colKey : String) (v : CellValue) : Except Unit (String × TextStyle) :=
  match stringOfJs v with
  | none => Except.error ()
  | some s0 =>
    match v with
    | .nullV => Except.ok (truncB "—", TextStyle.muted)
    | .undefV => Except.ok (truncB "—", TextStyle.muted)
    | .boolV b =>
        Except.ok (truncB (if b then "✓" else "✗"),
          if b then TextStyle.positive else TextStyle.negative)
    | .dateV lr _ _ => Except.ok (truncB lr, TextStyle.normal)
    | .numV r cr high =>
        if colKey = "salary" then
          Except.ok (truncB cr, if high then TextStyle.positive else TextStyle.normal)
        else Except.ok (truncB r, TextStyle.normal)
    | _ => Except.ok (truncB s0, TextStyle.normal)

/-- Counterexample for C8 as stated: implementation A renders a null cell as
the empty string, not as an em-dash placeholder; and implementation B passes
objects through `String()` with no fallback, so a throwing `toString`
propagates out of the cell renderer. -/
theorem formatA_null_not_emdash :
    formatA CellValue.nullV = "" ∧ formatA CellValue.nullV ≠ "—" ∧
    formatB "name" (CellValue.objV (some "{}") none) = Except.error () := by
  refine ⟨rfl, by decide, rfl⟩

/-- Claim C8 (amended): null/undefined cells never throw in either
implementation, but only implementation B renders them as the muted em-dash
placeholder (implementation A yields the empty string); objects are
stringified defensively with the fixed "[Object]" fallback only in
implementation A, while implementation B's `String(object)` propagates a
stringification failure. -/
theorem cellValue_formatting (json str : Option String) (s colKey : String) :
    formatA CellValue.nullV = "" ∧
    formatA CellValue.undefV = "" ∧
    formatA (CellValue.objV json str) = json.getD "[Object]" ∧
    formatB colKey CellValue.nullV = Except.ok ("—", TextStyle.muted) ∧
    formatB colKey CellValue.undefV = Except.ok ("—", TextStyle.muted) ∧
    formatB colKey (CellValue.objV json none) = Except.error () ∧
    formatB colKey (CellValue.objV json (some s))
      = Except.ok (truncB s, TextStyle.normal) :=
  ⟨rfl, rfl, rfl, rfl, rfl, rfl, rfl⟩

/-- A row record: an opaque finite mapping from column key to value, owned by
the caller. -/
abbrev RowRecord := List (String × CellValue)

/-- A tiny heap of JS arrays, to make array mutation (and its absence)
expressible: references are indices into the store. -/
structure Store where
  arrays : List (List RowRecord)
  deriving DecidableEq

def Store.get (σ : Store) (r : ℕ) : List RowRecord :=
  σ.arrays.getD r []

def Store.set (σ : Store) (r : ℕ) (v : List RowRecord) : Store :=
  ⟨σ.arrays.set r v⟩

def Store.alloc (σ : Store) (v : List RowRecord) : Store × ℕ :=
  (⟨σ.arrays ++ [v]⟩, σ.arrays.length)

/-- `processData` (`DataGrid`, lines 363-410): `[...data]` allocates a fresh
array holding the caller's rows; `.sort(comparator)` then mutates that fresh
array in place (modelled as a store update at the new reference, using the
comparator closure of lines 371-400 — custom `column.sortFunction` or the
default — abstracted as `cmp`, since the caller-visible effect does not
depend on the comparison results); pagination takes a `.slice`, a new array
value.  Returns the updated store and the processed rows. -/
def processData (σ : Store) (dataRef : ℕ) (doSort : Bool)
    (cmp : RowRecord → RowRecord → Bool) (pagination : Bool)
    (currentPage pageSize : ℕ) : Store × List RowRecord :=
  let alloced := σ.alloc (σ.get dataRef)
  let σ₂ := if doSort then
      alloced.1.set alloced.2 ((alloced.1.get alloced.2).mergeSort cmp)
    else alloced.1
  let result :=
    if pagination then
      ((σ₂.get alloced.2).drop ((currentPage - 1) * pageSize)).take pageSize
    else σ₂.get alloced.2
  (σ₂, result)

/-- Claim C9: the caller-supplied dataset is read-only to the grid — for
every store, sort configuration and pagination state, running `processData`
leaves the array at the caller's reference (and hence its row records)
exactly as it was: sorting operates on the freshly allocated copy only. -/
theorem processData_preserves_caller (σ : Store) (dataRef : ℕ) (doSort : Bool)
    (cmp : RowRecord → RowRecord → Bool) (pagination : Bool)
    (currentPage pageSize : ℕ) (h : dataRef < σ.arrays.length) :
    (processData σ dataRef doSort cmp pagination currentPage pageSize).1.get dataRef
      = σ.get dataRef := by
  unfold processData Store.alloc Store.set Store.get
  simp only
  split_ifs with hs
  · simp only [List.getD_eq_getElem?_getD]
    rw [List.getElem?_set_ne (by omega), List.getElem?_append, if_pos h]
  · simp only [List.getD_eq_getElem?_getD]
    rw [List.getElem?_append, if_pos h]

/-- Witness for C9: a one-array store with a single row, sorted and
paginated; the caller's array is untouched. -/
theorem processData_preserves_caller_witness :
    (processData ⟨[[[("a", CellValue.nullV)]]]⟩ 0 true (fun _ _ => true) true 1 10).1.get 0
      = Store.get ⟨[[[("a", CellValue.nullV)]]]⟩ 0 :=
  processData_preserves_caller ⟨[[[("a", CellValue.nullV)]]]⟩ 0 true
    (fun _ _ => true) true 1 10 (by decide)

/-- The navigation keys handled by `handleKeyDown` (`DataGrid`, lines
425-467). -/
inductive NavKey where
  | arrowUp
  | arrowDown
  | arrowLeft
  | arrowRight
  | homeKey
  | endKey
  | pageUp
  | pageDown

/-- The focused-cell update of `handleKeyDown`: each branch clamps the new
row index into [0, processedData.length - 1] and the new column index into
[0, columns.length - 1] via `Math.max`/`Math.min`, with Ctrl+Home/End
jumping to the corners. -/
def handleKeyNav (key : NavKey) (ctrl : Bool)
    (rowIndex columnIndex dataLen colsLen : ℤ) : ℤ × ℤ :=
  match key with
  | .arrowUp => (max 0 (rowIndex - 1), columnIndex)
  | .arrowDown => (min (dataLen - 1) (rowIndex + 1), columnIndex)
  | .arrowLeft => (rowIndex, max 0 (columnIndex - 1))
  | .arrowRight => (rowIndex, min (colsLen - 1) (columnIndex + 1))
  | .homeKey => if ctrl then (0, 0) else (rowIndex, 0)
  | .endKey => if ctrl then (dataLen - 1, colsLen - 1) else (rowIndex, colsLen - 1)
  | .pageUp => (max 0 (rowIndex - 10), columnIndex)
  | .pageDown => (min (dataLen - 1) (rowIndex + 10), columnIndex)

/-- Claim C10: keyboard navigation keeps the focused cell in bounds — for
every handled navigation key and every starting cell with row in
[0, dataLen - 1] and column in [0, colsLen - 1], the updated focused cell
stays within those same bounds. -/
theorem handleKeyNav_in_bounds (key : NavKey) (ctrl : Bool)
    (rowIndex columnIndex dataLen colsLen : ℤ)
    (hr0 : 0 ≤ rowIndex) (hr1 : rowIndex ≤ dataLen - 1)
    (hc0 : 0 ≤ columnIndex) (hc1 : columnIndex ≤ colsLen - 1) :
    0 ≤ (handleKeyNav key ctrl rowIndex columnIndex dataLen colsLen).1 ∧
    (handleKeyNav key ctrl rowIndex columnIndex dataLen colsLen).1 ≤ dataLen - 1 ∧
    0 ≤ (handleKeyNav key ctrl rowIndex columnIndex dataLen colsLen).2 ∧
    (handleKeyNav key ctrl rowIndex columnIndex dataLen colsLen).2 ≤ colsLen - 1 := by
  cases key <;> simp only [handleKeyNav] <;> (try split_ifs) <;> omega

/-- Witness for C10: pressing ArrowDown from cell (0, 0) in a 5 × 3 grid
stays in bounds. -/
theorem handleKeyNav_in_bounds_witness :
    0 ≤ (handleKeyNav NavKey.arrowDown false 0 0 5 3).1 ∧
    (handleKeyNav NavKey.arrowDown false 0 0 5 3).1 ≤ 5 - 1 ∧
    0 ≤ (handleKeyNav NavKey.arrowDown false 0 0 5 3).2 ∧
    (handleKeyNav NavKey.arrowDown false 0 0 5 3).2 ≤ 3 - 1 :=
  handleKeyNav_in_bounds NavKey.arrowDown false 0 0 5 3 (by decide) (by decide)
    (by decide) (by decide)

end ReactDataMatrix
